import Mathlib

/-!
Verification of the bibparser core pipeline.

Shallow embedding of the bibparser repository (src/lexer.rs, src/parser.rs,
src/types.rs, src/errors.rs): the character-level lexing state machine, the
token-consuming entry assembler, and the post-processing helpers on
`BibEntry`.  Rust strings are modelled as Lean `String`, `VecDeque` as
`List` (push_back appends, pop_front takes the head), `HashMap` as an
association list with the same get/insert contract, and the two pull-based
iterators as explicit state-passing step functions.
-/

set_option synthInstance.maxSize 1000

namespace Bibparser

/-! ## Character classification (models of Rust `char` predicates) -/

/-- Model of Rust `char::is_whitespace`: the Unicode `White_Space` property.
This is the complete code-point list of that property. -/
def rustIsWhitespace (c : Char) : Bool :=
  c.toNat == 0x09 || c.toNat == 0x0A || c.toNat == 0x0B || c.toNat == 0x0C ||
  c.toNat == 0x0D || c.toNat == 0x20 || c.toNat == 0x85 || c.toNat == 0xA0 ||
  c.toNat == 0x1680 || (0x2000 ≤ c.toNat && c.toNat ≤ 0x200A) ||
  c.toNat == 0x2028 || c.toNat == 0x2029 || c.toNat == 0x202F ||
  c.toNat == 0x205F || c.toNat == 0x3000

/-- Model of Rust `char::is_alphanumeric`.  Exact on the ASCII range; all
inputs considered in this development are ASCII.  Non-ASCII code points are
classified as not alphanumeric. -/
def rustIsAlphanumeric (c : Char) : Bool :=
  (48 ≤ c.toNat && c.toNat ≤ 57) || (65 ≤ c.toNat && c.toNat ≤ 90) ||
    (97 ≤ c.toNat && c.toNat ≤ 122)

/-- Model of Rust `char::is_ascii`. -/
def rustIsAscii (c : Char) : Bool :=
  c.toNat ≤ 127

/-- Model of Rust `char::to_lowercase` / `str::to_lowercase`, exact on the
ASCII range (the only range exercised here). -/
def rustToLowercaseChar (c : Char) : Char :=
  if 65 ≤ c.toNat && c.toNat ≤ 90 then Char.ofNat (c.toNat + 32) else c

/-- ASCII-exact model of Rust `str::to_lowercase`. -/
def rustToLowercase (s : String) : String :=
  ⟨s.data.map rustToLowercaseChar⟩

/-! ## Model of Rust `str::lines` -/

/-- Split a character list at every newline; `n` newlines yield `n + 1`
pieces (the newline characters are dropped). -/
def linesSplit : List Char → List (List Char)
  | [] => [[]]
  | c :: rest =>
    if c = '\n' then [] :: linesSplit rest
    else
      match linesSplit rest with
      | [] => [[c]]
      | p :: ps => (c :: p) :: ps

/-- Drop one trailing carriage return (Rust `lines` strips `\r` only from
newline-terminated pieces). -/
def stripTrailingCR (l : List Char) : List Char :=
  if l.getLast? = some '\r' then l.dropLast else l

/-- Model of Rust `str::lines`: split on `'\n'`, drop a final empty piece,
and strip a trailing `'\r'` from every newline-terminated piece. -/
def rustLines (s : String) : List String :=
  let ps := linesSplit s.data
  let init := ps.dropLast.map (fun p => (⟨stripTrailingCR p⟩ : String))
  match ps.getLast? with
  | some [] => init
  | some last => init ++ [⟨last⟩]
  | none => init

/-! ## Model of Rust `str::replace` -/

/-- Decidable equality for `Except` (not provided by the core library). -/
instance exceptDecEq {ε : Type u} {α : Type v} [DecidableEq ε] [DecidableEq α] :
    DecidableEq (Except ε α)
  | .error e, .error f =>
    if h : e = f then isTrue (congrArg Except.error h)
    else isFalse (fun hh => h (Except.error.inj hh))
  | .ok x, .ok y =>
    if h : x = y then isTrue (congrArg Except.ok h)
    else isFalse (fun hh => h (Except.ok.inj hh))
  | .error _, .ok _ => isFalse (fun hh => Except.noConfusion hh)
  | .ok _, .error _ => isFalse (fun hh => Except.noConfusion hh)

/-! ## Lexer data model (src/lexer.rs) -/

/-- One semantic unit read from the biblatex file (`Token` in src/lexer.rs). -/
inductive Token where
  | EntrySymbol
  | EntryType (s : String)
  | OpenEntry
  | EntryId (s : String)
  | FieldName (s : String)
  | FieldData (s : String)
  | Preamble (s : String)
  | CloseEntry
  | EndOfFile
  deriving DecidableEq, Repr

/-- Source-position information attached to a token (`TokenInfo`). -/
structure TokenInfo where
  lineno : Nat
  colno : Nat
  current_line : String
  current_id : Option String
  deriving DecidableEq, Repr

/-- The states of the lexing state machine (`LexingState`). -/
inductive LexingState where
  | Default
  | ReadingType
  | WaitForOpen
  | ReadingId
  | WaitForComma
  | ReadingName
  | WaitForAssign
  | ReadingDataStart
  | ReadingData
  | ReadingPreambleStringStart
  | ReadingPreambleStringStartOrConcat
  | ReadingPreambleString
  | WaitForSep
  deriving DecidableEq, Repr

/-- The `fmt::Display` rendering of a lexing state. -/
def LexingState.descr : LexingState → String
  | .Default => "waiting for next entry"
  | .ReadingType => "reading entry type"
  | .WaitForOpen => "expecting '\x7b' for entry data"
  | .ReadingId => "reading entry ID"
  | .WaitForComma => "waiting for comma separating ID and fields"
  | .ReadingName => "reading field name"
  | .WaitForAssign => "expecting '=' for field assignment"
  | .ReadingDataStart => "reading start of field data"
  | .ReadingData => "reading field data"
  | .ReadingPreambleStringStart => "reading start of preamble string"
  | .ReadingPreambleString => "reading preamble content string"
  | .ReadingPreambleStringStartOrConcat => "reading next preamble content string"
  | .WaitForSep => "expecting separator ',' between field"

/-- An error raised during lexing (`LexingError` in src/errors.rs). -/
inductive LexingError where
  | UnexpectedChar (c : Char) (action : String) (info : TokenInfo)
  | UnexpectedEOF (action : String)
  deriving DecidableEq, Repr

/-- The mutable state of `LexingIterator` (src/lexer.rs). -/
structure LexingIterator where
  src : String
  next_tokens : List (Token × TokenInfo)
  lineno : Nat
  colno : Nat
  state : LexingState
  current_id : Option String
  arg_cache : String
  escape_character : Bool
  dblquotes_terminator : Bool
  curlybrace_terminator : Bool
  curlybrace_level : Nat
  eof : Bool
  deriving DecidableEq, Repr

/-- `LexingIterator::info`: snapshot the current position. -/
def LexingIterator.info (it : LexingIterator) (line : String) : TokenInfo :=
  ⟨it.lineno, it.colno, line, it.current_id⟩

/-- `LexingIterator::postprocess_field_value` (currently the identity). -/
def postprocessFieldValue (s : String) : String :=
  s

/-- One step of `LexingIterator::lex`: the dispatch on (state, character),
before the trailing column-number increment.  An error carries the iterator
state at the point of failure (the Rust code returns before mutating). -/
def lexStep (it : LexingIterator) (line : String) (chr : Char) :
    Except (LexingError × LexingIterator) LexingIterator :=
  let unexpected := fun (text : String) =>
    Except.error (LexingError.UnexpectedChar chr text (it.info line), it)
  match it.state with
  | .Default =>
    if chr = '@' then .ok { it with state := .ReadingType }
    else if rustIsWhitespace chr then .ok it
    else unexpected "reading next entry"
  | .ReadingType =>
    if rustIsWhitespace chr then
      if it.arg_cache.isEmpty then .ok it
      else .ok { it with
        next_tokens := it.next_tokens ++ [(Token.EntrySymbol, it.info line)],
        state := .WaitForOpen }
    else if rustIsAlphanumeric chr || (!it.arg_cache.isEmpty && rustIsWhitespace chr) then
      .ok { it with arg_cache := it.arg_cache.push chr }
    else if chr = '{' then
      let it := if !it.arg_cache.isEmpty then { it with current_id := some it.arg_cache } else it
      let it := { it with
        next_tokens := it.next_tokens ++
          [(Token.EntrySymbol, it.info line),
           (Token.EntryType it.arg_cache, it.info line),
           (Token.OpenEntry, it.info line)],
        arg_cache := "",
        state := LexingState.ReadingId }
      let it := match it.current_id with
        | some i => if rustToLowercase i = "preamble"
            then { it with state := LexingState.ReadingPreambleStringStart } else it
        | none => it
      .ok it
    else unexpected "reading entry type"
  | .WaitForOpen =>
    if rustIsWhitespace chr then .ok it
    else if chr = '{' then
      let it := { it with
        next_tokens := it.next_tokens ++
          [(Token.EntryType it.arg_cache, it.info line),
           (Token.OpenEntry, it.info line)],
        arg_cache := "",
        state := LexingState.ReadingId }
      let it := match it.current_id with
        | some i => if rustToLowercase i = "preamble"
            then { it with state := LexingState.ReadingPreambleStringStart } else it
        | none => it
      .ok it
    else unexpected "expecting '\x7b' to start list of fields"
  | .ReadingId =>
    if rustIsWhitespace chr then
      if it.arg_cache.isEmpty then .ok it
      else .ok { it with state := .WaitForComma }
    else if chr = ',' then
      .ok { it with
        next_tokens := it.next_tokens ++ [(Token.EntryId it.arg_cache, it.info line)],
        arg_cache := "",
        state := .ReadingName }
    else if !(rustIsAscii chr) then unexpected "expecting ASCII entry name"
    else .ok { it with arg_cache := it.arg_cache.push chr }
  | .WaitForComma =>
    if rustIsWhitespace chr then .ok it
    else if chr = ',' then
      .ok { it with
        next_tokens := it.next_tokens ++ [(Token.EntryId it.arg_cache, it.info line)],
        arg_cache := "",
        state := .ReadingName }
    else unexpected "expecting ',' after name"
  | .ReadingName =>
    if rustIsWhitespace chr then
      if it.arg_cache.isEmpty then .ok it
      else .ok { it with state := .WaitForAssign }
    else if chr = '=' then
      .ok { it with
        next_tokens := it.next_tokens ++ [(Token.FieldName it.arg_cache, it.info line)],
        arg_cache := "",
        state := .ReadingDataStart }
    else if rustIsAscii chr then .ok { it with arg_cache := it.arg_cache.push chr }
    else unexpected "expecting field name"
  | .WaitForAssign =>
    if rustIsWhitespace chr then .ok it
    else if chr = '=' then
      .ok { it with
        next_tokens := it.next_tokens ++ [(Token.FieldName it.arg_cache, it.info line)],
        arg_cache := "",
        state := .ReadingDataStart }
    else unexpected "expecting field name"
  | .ReadingDataStart =>
    if rustIsWhitespace chr then .ok it
    else if chr = '{' then
      .ok { it with
        curlybrace_terminator := true,
        dblquotes_terminator := false,
        curlybrace_level := 0,
        state := .ReadingData }
    else if chr = '"' then
      .ok { it with
        curlybrace_terminator := false,
        dblquotes_terminator := true,
        curlybrace_level := 0,
        state := .ReadingData }
    else unexpected "expecting field name"
  | .ReadingData =>
    if chr = '\\' && !it.escape_character then
      .ok { it with escape_character := true }
    else if chr = '\\' && it.escape_character then
      .ok { it with escape_character := false, arg_cache := it.arg_cache.push '\n' }
    else if chr = '{' && !it.escape_character then
      let it := if it.curlybrace_terminator
        then { it with curlybrace_level := it.curlybrace_level + 1 } else it
      .ok { it with arg_cache := it.arg_cache.push chr }
    else if chr = '}' && !it.escape_character then
      if it.curlybrace_terminator && it.curlybrace_level == 0 then
        .ok { it with
          next_tokens := it.next_tokens ++
            [(Token.FieldData (postprocessFieldValue it.arg_cache), it.info line)],
          arg_cache := "",
          state := .WaitForSep }
      else
        let it := if it.curlybrace_terminator
          then { it with curlybrace_level := it.curlybrace_level - 1 } else it
        .ok { it with arg_cache := it.arg_cache.push chr }
    else if chr = '"' && !it.escape_character then
      if it.dblquotes_terminator then
        .ok { it with
          next_tokens := it.next_tokens ++
            [(Token.FieldData (postprocessFieldValue it.arg_cache), it.info line)],
          arg_cache := "",
          state := .WaitForSep }
      else .ok { it with arg_cache := it.arg_cache.push chr }
    else if it.escape_character && chr = '"' && it.dblquotes_terminator then
      .ok { it with escape_character := false, arg_cache := it.arg_cache.push chr }
    else if it.escape_character && chr = '}' && it.curlybrace_terminator then
      .ok { it with escape_character := false, arg_cache := it.arg_cache.push chr }
    else if it.escape_character then
      .ok { it with
        escape_character := false,
        arg_cache := (it.arg_cache.push '\\').push chr }
    else .ok { it with arg_cache := it.arg_cache.push chr }
  | .ReadingPreambleStringStart =>
    if rustIsWhitespace chr then .ok it
    else if chr = '"' then
      .ok { it with arg_cache := "", state := .ReadingPreambleString }
    else if chr = '}' then
      .ok { it with
        next_tokens := it.next_tokens ++ [(Token.CloseEntry, it.info line)],
        state := .Default }
    else unexpected "reading '\"' to start a preamble string or '\x7d' to end preamble entry"
  | .ReadingPreambleStringStartOrConcat =>
    if rustIsWhitespace chr then .ok it
    else if chr = '"' then
      .ok { it with arg_cache := "", state := .ReadingPreambleString }
    else if chr = '}' then
      .ok { it with
        next_tokens := it.next_tokens ++ [(Token.CloseEntry, it.info line)],
        state := .Default }
    else if chr = '#' then
      .ok { it with state := .ReadingPreambleStringStart }
    else unexpected "reading '\"' to start a preamble string or '\x7d' to end preamble entry"
  | .ReadingPreambleString =>
    if chr = '\\' && !it.escape_character then
      .ok { it with escape_character := true }
    else if chr = '"' && it.escape_character then
      .ok { it with escape_character := false, arg_cache := it.arg_cache.push '"' }
    else if chr = '"' && !it.escape_character then
      .ok { it with
        next_tokens := it.next_tokens ++ [(Token.Preamble it.arg_cache, it.info line)],
        state := .ReadingPreambleStringStartOrConcat }
    else
      let it := if it.escape_character then { it with arg_cache := it.arg_cache.push '\\' } else it
      .ok { it with arg_cache := it.arg_cache.push chr, escape_character := false }
  | .WaitForSep =>
    if chr = ',' then .ok { it with state := .ReadingName }
    else if chr = '}' then
      .ok { it with
        next_tokens := it.next_tokens ++ [(Token.CloseEntry, it.info line)],
        state := .Default }
    else .ok it

/-- One character of `LexingIterator::lex` including the trailing
`self.colno += 1` (skipped on error, as in the source). -/
def lexChar (it : LexingIterator) (line : String) (chr : Char) :
    Except (LexingError × LexingIterator) LexingIterator :=
  match lexStep it line chr with
  | .ok it' => .ok { it' with colno := it'.colno + 1 }
  | .error e => .error e

/-- Run `lexChar` over a list of characters of one line. -/
def lexChars (it : LexingIterator) (line : String) : List Char →
    Except (LexingError × LexingIterator) LexingIterator
  | [] => .ok it
  | c :: cs =>
    match lexChar it line c with
    | .error e => .error e
    | .ok it' => lexChars it' line cs

/-- Process one source line: its characters followed by the synthesised
`'\n'`, then advance the line counter. -/
def lexLine (it : LexingIterator) (line : String) :
    Except (LexingError × LexingIterator) LexingIterator :=
  match lexChars it line (line.data ++ ['\n']) with
  | .error e => .error e
  | .ok it' => .ok { it' with lineno := it'.lineno + 1, colno := 0 }

/-- Process a list of source lines. -/
def lexLines (it : LexingIterator) : List String →
    Except (LexingError × LexingIterator) LexingIterator
  | [] => .ok it
  | l :: ls =>
    match lexLine it l with
    | .error e => .error e
    | .ok it' => lexLines it' ls

/-- `LexingIterator::lex`: process the whole source, then either raise
`UnexpectedEOF` (state not `Default`) or push the `EndOfFile` token and set
the `eof` flag. -/
def lex (it : LexingIterator) : Except (LexingError × LexingIterator) LexingIterator :=
  match lexLines it (rustLines it.src) with
  | .error e => .error e
  | .ok it' =>
    if it'.state ≠ LexingState.Default then
      .error (LexingError.UnexpectedEOF it'.state.descr, it')
    else
      .ok { it' with
        next_tokens := it'.next_tokens ++ [(Token.EndOfFile, ⟨it'.lineno, 0, "", none⟩)],
        eof := true }

/-- `LexingIterator::next` (the `Iterator` impl): pop a pending token,
terminate on `eof`, otherwise run `lex` and try again.  Returns the item
(`none` = iterator exhausted) together with the successor state. -/
def nextLexer (it : LexingIterator) :
    Option (Except LexingError (Token × TokenInfo)) × LexingIterator :=
  match it.next_tokens with
  | t :: rest => (some (.ok t), { it with next_tokens := rest })
  | [] =>
    if it.eof then (none, it)
    else
      match lex it with
      | .error (e, it') => (some (.error e), it')
      | .ok it' =>
        match it'.next_tokens with
        | t :: rest => (some (.ok t), { it' with next_tokens := rest })
        | [] => (none, it')

/-- `Lexer::iter`: the initial lexing state for a given source text. -/
def Lexer.iter (src : String) : LexingIterator :=
  ⟨src, [], 0, 0, .Default, none, "", false, false, false, 0, false⟩

/-! ## Entry value model and post-processing (src/types.rs) -/

/-- `HashMap::get`, on the association-list model of the field map. -/
def hmGet : List (String × String) → String → Option String
  | [], _ => none
  | (k', v) :: rest, k => if k' = k then some v else hmGet rest k

/-- `HashMap::insert`, on the association-list model: replace the binding
if the key is present, otherwise append it. -/
def hmInsert : List (String × String) → String → String → List (String × String)
  | [], k, v => [(k, v)]
  | (k', v') :: rest, k, v =>
    if k' = k then (k, v) :: rest else (k', v') :: hmInsert rest k v

/-- One entry of a `.bib` file (`BibEntry` in src/types.rs); the `HashMap`
of fields is modelled as an association list. -/
structure BibEntry where
  kind : String
  id : String
  fields : List (String × String)
  deriving DecidableEq, Repr

/-- `BibEntry::new`. -/
def BibEntry.new : BibEntry :=
  ⟨"", "", []⟩

/-- One character of the scan inside `BibEntry::degroup`: state is
(result, brace level, escape flag); the level is a Rust `i32`. -/
def degroupStep : List Char × Int × Bool → Char → List Char × Int × Bool
  | (res, level, esc), c =>
    if c = '{' && !esc then (res, level + 1, esc)
    else if c = '}' && !esc then (res, level - 1, esc)
    else if c = '\\' then ((if esc then res ++ ['\\'] else res), level, !esc)
    else ((if esc then res ++ ['\\', c] else res ++ [c]), level, false)

/-- `BibEntry::degroup`: strip unescaped braces; if the final brace level
is nonzero, fall back to the original string. -/
def BibEntry.degroup (src : String) : String :=
  let scan := src.data.foldl degroupStep ([], 0, false)
  if scan.2.1 = 0 then ⟨scan.1⟩ else src

/-- An error surfaced by the entry assembler: either a lexing error passed
through unchanged, or the `DuplicateName` parsing error (the only
`ParsingError` the assembler constructs). -/
inductive BibError where
  | lexical (e : LexingError)
  | duplicateName (name : String) (info : TokenInfo)
  deriving DecidableEq, Repr

/-- The mutable state of the `BibEntries` iterator (src/parser.rs). -/
structure BibEntries where
  iter : LexingIterator
  entries : List BibEntry
  current : BibEntry
  name_cached : String
  finished : Bool
  deriving DecidableEq, Repr

/-- `BibEntries::parse`: pull one token from the lexer and fold it into the
assembler state; returns the successor state and an optional error. -/
def BibEntries.parse (pb : BibEntries) : BibEntries × Option BibError :=
  match nextLexer pb.iter with
  | (some (.ok (tok, info)), it') =>
    let pb := { pb with iter := it' }
    match tok with
    | .EntrySymbol => (pb, none)
    | .EntryType k =>
      ({ pb with current := { pb.current with kind := pb.current.kind ++ k } }, none)
    | .OpenEntry => (pb, none)
    | .EntryId i =>
      ({ pb with current := { pb.current with id := pb.current.id ++ i } }, none)
    | .FieldName n => ({ pb with name_cached := n }, none)
    | .FieldData d =>
      let name := pb.name_cached
      let pb := { pb with name_cached := "" }
      if (hmGet pb.current.fields name).isSome then
        (pb, some (.duplicateName name info))
      else
        ({ pb with current := { pb.current with fields := hmInsert pb.current.fields name d } },
          none)
    | .CloseEntry =>
      ({ pb with entries := pb.entries ++ [pb.current], current := BibEntry.new }, none)
    -- the source match has no Preamble arm; per the specification (§4.2)
    -- Preamble tokens are consumed without mutating entry content
    | .Preamble _ => (pb, none)
    | .EndOfFile => (pb, none)
  | (some (.error e), it') => ({ pb with iter := it' }, some (.lexical e))
  | (none, it') => ({ pb with iter := it', finished := true }, none)

/-- `BibEntries::next` (the `Iterator` impl), with explicit fuel for the
`loop`.  The outer `Option` is `none` exactly when the fuel ran out; a
returned `some item` is the item the Rust loop returns (`item = none`
meaning the iterator reported end of sequence). -/
def BibEntries.nextWithFuel : Nat → BibEntries →
    Option (Option (Except BibError BibEntry)) × BibEntries
  | 0, pb => (none, pb)
  | fuel + 1, pb =>
    if pb.finished then (some none, pb)
    else
      match pb.entries with
      | e :: rest => (some (some (.ok e)), { pb with entries := rest })
      | [] =>
        match pb.parse with
        | (pb', some err) => (some (some (.error err)), pb')
        | (pb', none) => BibEntries.nextWithFuel fuel pb'

/-- Pull up to `n` items from the `BibEntries` iterator, each pull with the
given fuel; stops early if the fuel is exhausted. -/
def pullsWithFuel : Nat → Nat → BibEntries → List (Option (Except BibError BibEntry))
  | 0, _, _ => []
  | n + 1, fuel, pb =>
    match BibEntries.nextWithFuel fuel pb with
    | (none, _) => []
    | (some item, pb') => item :: pullsWithFuel n fuel pb'

/-- `Parser::iter`: the initial assembler state for a given source text. -/
def Parser.iter (src : String) : BibEntries :=
  ⟨Lexer.iter src, [], BibEntry.new, "", false⟩

/-- Forget `TokenInfo` payloads of a pulled item, keeping the data the
claims speak about: error class (duplicate field name or lexical) and the
entry's kind, id and field list. -/
def itemView : Option (Except BibError BibEntry) →
    Option (Except (Option String) (String × String × List (String × String)))
  | none => none
  | some (.error (.duplicateName n _)) => some (.error (some n))
  | some (.error (.lexical _)) => some (.error none)
  | some (.ok e) => some (.ok (e.kind, e.id, e.fields))

/-- The token kinds produced by a full (successful) run of
`LexingIterator::lex` on a source text. -/
def lexedTokens (src : String) : List Token :=
  match lex (Lexer.iter src) with
  | .ok it => it.next_tokens.map Prod.fst
  | .error _ => []

/-- The token kinds produced by a full successful lex run, each paired with
the `current_id` component of its attached position. -/
def lexedTokenIds (src : String) : List (Token × Option String) :=
  match lex (Lexer.iter src) with
  | .ok it => it.next_tokens.map (fun t => (t.1, t.2.current_id))
  | .error _ => []

/-- The lexer state after consuming the first `plen` characters of the
source (all on one line), or `none` if that errors. -/
def lexStateAfter (src : String) (plen : Nat) : Option LexingState :=
  match lexChars (Lexer.iter src) src (src.data.take plen) with
  | .ok it => some it.state
  | .error _ => none

/-! ## Specification-side helper predicates -/

/-- Scanning from brace depth `level`, every unescaped `'}'` is reached at
positive depth (so none of the characters terminates a brace-delimited
field value early). -/
def innerBalancedOk (level : Nat) : List Char → Bool
  | [] => true
  | c :: cs =>
    if c = '{' then innerBalancedOk (level + 1) cs
    else if c = '}' then level != 0 && innerBalancedOk (level - 1) cs
    else innerBalancedOk level cs

/-- The brace depth after scanning a character list from depth `level`. -/
def scanLevel (level : Nat) : List Char → Nat
  | [] => level
  | c :: cs =>
    if c = '{' then scanLevel (level + 1) cs
    else if c = '}' then scanLevel (level - 1) cs
    else scanLevel level cs

/-- The keys of an association list are pairwise distinct. -/
def keysDistinct : List (String × String) → Bool
  | [] => true
  | (k, _) :: rest => (hmGet rest k).isNone && keysDistinct rest

theorem isEmpty_eq_false {s : String} (h : s ≠ "") : s.isEmpty = false := by
  cases hh : s.isEmpty
  · rfl
  · exact absurd ((String.isEmpty_iff s).mp hh) h

theorem rustIsWhitespace_of_alnum {c : Char} (h : rustIsAlphanumeric c = true) :
    rustIsWhitespace c = false := by
  simp only [rustIsAlphanumeric, Bool.or_eq_true, Bool.and_eq_true, decide_eq_true_eq] at h
  simp only [rustIsWhitespace, Bool.or_eq_false_iff, beq_eq_false_iff_ne, ne_eq,
    Bool.and_eq_false_iff, decide_eq_false_iff_not, not_le]
  omega

theorem whitespace_newline : rustIsWhitespace '\n' = true := by decide

theorem lexChars_append (it : LexingIterator) (line : String) (xs ys : List Char) :
    lexChars it line (xs ++ ys) =
      match lexChars it line xs with
      | .ok it' => lexChars it' line ys
      | .error e => .error e := by
  induction xs generalizing it with
  | nil => simp [lexChars]
  | cons c cs ih =>
    simp only [List.cons_append, lexChars]
    cases lexChar it line c with
    | error e => rfl
    | ok it' => exact ih it'

/-! ## Runs of the state machine over restricted character classes -/

theorem lexChars_readingType (line : String) :
    ∀ (cs : List Char) (it : LexingIterator),
      it.state = .ReadingType → (∀ c ∈ cs, rustIsAlphanumeric c = true) →
      lexChars it line cs =
        .ok { it with arg_cache := ⟨it.arg_cache.data ++ cs⟩, colno := it.colno + cs.length } := by
  intro cs
  induction cs with
  | nil =>
    intro it h1 h2
    simp [lexChars]
  | cons c cs ih =>
    intro it h1 h2
    have hal : rustIsAlphanumeric c = true := h2 c (List.mem_cons_self c cs)
    have hws : rustIsWhitespace c = false := rustIsWhitespace_of_alnum hal
    obtain ⟨src, toks, ln, col, st, cid, arg, esc, dq, cb, lvl, eo⟩ := it
    simp only at h1
    subst h1
    simp only [lexChars, lexChar, lexStep, hws, hal, Bool.false_eq_true, if_false,
      Bool.true_or, if_true]
    rw [ih _ rfl (fun c' hc => h2 c' (List.mem_cons_of_mem _ hc))]
    simp [String.push, Nat.add_assoc, Nat.add_comm 1 cs.length]

theorem lexChars_readingId (line : String) :
    ∀ (cs : List Char) (it : LexingIterator),
      it.state = .ReadingId →
      (∀ c ∈ cs, rustIsAscii c = true ∧ rustIsWhitespace c = false ∧ c ≠ ',') →
      lexChars it line cs =
        .ok { it with arg_cache := ⟨it.arg_cache.data ++ cs⟩, colno := it.colno + cs.length } := by
  intro cs
  induction cs with
  | nil =>
    intro it h1 h2
    simp [lexChars]
  | cons c cs ih =>
    intro it h1 h2
    obtain ⟨hac, hws, hcm⟩ := h2 c (List.mem_cons_self c cs)
    obtain ⟨src, toks, ln, col, st, cid, arg, esc, dq, cb, lvl, eo⟩ := it
    simp only at h1
    subst h1
    simp only [lexChars, lexChar, lexStep, hws, hac, hcm, Bool.false_eq_true, if_false,
      Bool.not_true, if_true]
    rw [ih _ rfl (fun c' hc => h2 c' (List.mem_cons_of_mem _ hc))]
    simp [String.push, Nat.add_assoc, Nat.add_comm 1 cs.length]

theorem lexChars_readingName (line : String) :
    ∀ (cs : List Char) (it : LexingIterator),
      it.state = .ReadingName →
      (∀ c ∈ cs, rustIsAscii c = true ∧ rustIsWhitespace c = false ∧ c ≠ '=') →
      lexChars it line cs =
        .ok { it with arg_cache := ⟨it.arg_cache.data ++ cs⟩, colno := it.colno + cs.length } := by
  intro cs
  induction cs with
  | nil =>
    intro it h1 h2
    simp [lexChars]
  | cons c cs ih =>
    intro it h1 h2
    obtain ⟨hac, hws, hcm⟩ := h2 c (List.mem_cons_self c cs)
    obtain ⟨src, toks, ln, col, st, cid, arg, esc, dq, cb, lvl, eo⟩ := it
    simp only at h1
    subst h1
    simp only [lexChars, lexChar, lexStep, hws, hac, hcm, Bool.false_eq_true, if_false,
      if_true]
    rw [ih _ rfl (fun c' hc => h2 c' (List.mem_cons_of_mem _ hc))]
    simp [String.push, Nat.add_assoc, Nat.add_comm 1 cs.length]

theorem lexChars_readingDataCurly (line : String) :
    ∀ (cs : List Char) (it : LexingIterator),
      it.state = .ReadingData → it.escape_character = false →
      it.curlybrace_terminator = true → it.dblquotes_terminator = false →
      '\\' ∉ cs → innerBalancedOk it.curlybrace_level cs = true →
      lexChars it line cs =
        .ok { it with arg_cache := ⟨it.arg_cache.data ++ cs⟩,
                      colno := it.colno + cs.length,
                      curlybrace_level := scanLevel it.curlybrace_level cs } := by
  intro cs
  induction cs with
  | nil =>
    intro it h1 h2 h3 h4 h5 h6
    simp [lexChars, scanLevel]
  | cons c cs ih =>
    intro it h1 h2 h3 h4 h5 h6
    have hnb : c ≠ '\\' := fun hh => h5 (hh ▸ List.mem_cons_self c cs)
    have h5' : '\\' ∉ cs := fun hh => h5 (List.mem_cons_of_mem _ hh)
    obtain ⟨src, toks, ln, col, st, cid, arg, esc, dq, cb, lvl, eo⟩ := it
    simp only at h1 h2 h3 h4 h6
    subst h1; subst h2; subst h3; subst h4
    by_cases hbr : c = '{'
    · subst hbr
      simp only [innerBalancedOk, if_true] at h6
      simp only [lexChars]
      rw [show lexChar (LexingIterator.mk src toks ln col .ReadingData cid arg false false
            true lvl eo) line '{' =
          .ok (LexingIterator.mk src toks ln (col + 1) .ReadingData cid (arg.push '{')
            false false true (lvl + 1) eo) from by simp [lexChar, lexStep]]
      exact (ih _ rfl rfl rfl rfl h5' h6).trans (by
        simp [String.push, scanLevel, Nat.add_assoc, Nat.add_comm 1 cs.length])
    · by_cases hbl : c = '}'
      · subst hbl
        rw [show innerBalancedOk lvl ('}' :: cs) = (lvl != 0 && innerBalancedOk (lvl - 1) cs)
          from by simp [innerBalancedOk], Bool.and_eq_true] at h6
        obtain ⟨hlvl, h6'⟩ := h6
        have hlvl' : (lvl == 0) = false := by
          simp only [bne, Bool.not_eq_true'] at hlvl
          exact hlvl
        simp only [lexChars]
        rw [show lexChar (LexingIterator.mk src toks ln col .ReadingData cid arg false false
              true lvl eo) line '}' =
            .ok (LexingIterator.mk src toks ln (col + 1) .ReadingData cid (arg.push '}')
              false false true (lvl - 1) eo) from by simp [lexChar, lexStep, hlvl']]
        exact (ih _ rfl rfl rfl rfl h5' h6').trans (by
          simp [String.push, scanLevel, Nat.add_assoc, Nat.add_comm 1 cs.length])
      · have h6' : innerBalancedOk lvl cs = true := by
          simpa [innerBalancedOk, hbr, hbl] using h6
        simp only [lexChars]
        rw [show lexChar (LexingIterator.mk src toks ln col .ReadingData cid arg false false
              true lvl eo) line c =
            .ok (LexingIterator.mk src toks ln (col + 1) .ReadingData cid (arg.push c)
              false false true lvl eo) from by
          simp [lexChar, lexStep, hnb, hbr, hbl, ite_self]]
        exact (ih _ rfl rfl rfl rfl h5' h6').trans (by
          simp [String.push, scanLevel, hbr, hbl, Nat.add_assoc, Nat.add_comm 1 cs.length])

theorem linesSplit_no_newline : ∀ cs : List Char, '\n' ∉ cs → linesSplit cs = [cs] := by
  intro cs h
  induction cs with
  | nil => rfl
  | cons c cs ih =>
    have hc : ¬(c = '\n') := fun hh => h (hh ▸ List.mem_cons_self c cs)
    simp [linesSplit, hc, ih (fun hh => h (List.mem_cons_of_mem _ hh))]

theorem rustLines_no_newline (s : String) (h1 : s.data ≠ []) (h2 : '\n' ∉ s.data) :
    rustLines s = [s] := by
  obtain ⟨l⟩ := s
  cases l with
  | nil => exact absurd rfl h1
  | cons c cs =>
    simp only at h2
    simp [rustLines, linesSplit_no_newline _ h2]

theorem pulls_standardEntry (src : String) (itF : LexingIterator) (k i n d : String)
    (i1 i2 i3 i4 i5 i6 i7 i8 : TokenInfo)
    (hlex : lex (Lexer.iter src) = .ok itF)
    (htoks : itF.next_tokens =
      [(Token.EntrySymbol, i1), (Token.EntryType k, i2), (Token.OpenEntry, i3),
       (Token.EntryId i, i4), (Token.FieldName n, i5), (Token.FieldData d, i6),
       (Token.CloseEntry, i7), (Token.EndOfFile, i8)])
    (heof : itF.eof = true) :
    (pullsWithFuel 2 16 (Parser.iter src)).map itemView =
      [some (.ok (k, i, [(n, d)])), none] := by
  obtain ⟨fsrc, toks, ln, col, st, cid, arg, esc, dq, cb, lvl, eo⟩ := itF
  simp only at htoks heof
  subst htoks
  subst heof
  simp only [Lexer.iter] at hlex
  simp [pullsWithFuel, BibEntries.nextWithFuel, BibEntries.parse, nextLexer, Parser.iter,
    Lexer.iter, hlex, hmGet, hmInsert, BibEntry.new, itemView]

theorem innerBalancedOk_no_braces (lvl : Nat) :
    ∀ cs : List Char, '{' ∉ cs → '}' ∉ cs → innerBalancedOk lvl cs = true := by
  intro cs
  induction cs generalizing lvl with
  | nil => intro _ _; rfl
  | cons c cs ih =>
    intro h1 h2
    have hc1 : ¬(c = '{') := fun hh => h1 (hh ▸ List.mem_cons_self c cs)
    have hc2 : ¬(c = '}') := fun hh => h2 (hh ▸ List.mem_cons_self c cs)
    simp [innerBalancedOk, hc1, hc2,
      ih lvl (fun hh => h1 (List.mem_cons_of_mem _ hh)) (fun hh => h2 (List.mem_cons_of_mem _ hh))]

theorem scanLevel_no_braces (lvl : Nat) :
    ∀ cs : List Char, '{' ∉ cs → '}' ∉ cs → scanLevel lvl cs = lvl := by
  intro cs
  induction cs generalizing lvl with
  | nil => intro _ _; rfl
  | cons c cs ih =>
    intro h1 h2
    have hc1 : ¬(c = '{') := fun hh => h1 (hh ▸ List.mem_cons_self c cs)
    have hc2 : ¬(c = '}') := fun hh => h2 (hh ▸ List.mem_cons_self c cs)
    simp [scanLevel, hc1, hc2,
      ih lvl (fun hh => h1 (List.mem_cons_of_mem _ hh)) (fun hh => h2 (List.mem_cons_of_mem _ hh))]

theorem lexChars_append_ok {it it' : LexingIterator} {line : String} {xs : List Char}
    (h : lexChars it line xs = .ok it') (ys : List Char) :
    lexChars it line (xs ++ ys) = lexChars it' line ys := by
  rw [lexChars_append, h]

theorem lex_minimal (k i n d : String)
    (hk : k ≠ "") (hkc : ∀ c ∈ k.data, rustIsAlphanumeric c = true)
    (hkp : ¬(rustToLowercase k = "preamble"))
    (hn : n ≠ "")
    (hic : ∀ c ∈ i.data, rustIsAscii c = true ∧ rustIsWhitespace c = false ∧ c ≠ ',')
    (hnc : ∀ c ∈ n.data, rustIsAscii c = true ∧ rustIsWhitespace c = false ∧ c ≠ '=')
    (hdc : ∀ c ∈ d.data, c ≠ '\\' ∧ c ≠ '{' ∧ c ≠ '}' ∧ c ≠ '\n') :
    ∃ itF : LexingIterator, ∃ i1 i2 i3 i4 i5 i6 i7 i8 : TokenInfo,
      lex (Lexer.iter ("@" ++ k ++ "\x7b" ++ i ++ ", " ++ n ++ " = \x7b" ++ d ++ "\x7d\x7d")) = .ok itF ∧
      itF.next_tokens =
        [(Token.EntrySymbol, i1), (Token.EntryType k, i2), (Token.OpenEntry, i3),
         (Token.EntryId i, i4), (Token.FieldName n, i5), (Token.FieldData d, i6),
         (Token.CloseEntry, i7), (Token.EndOfFile, i8)] ∧
      itF.eof = true := by
  set inp : String := "@" ++ k ++ "\x7b" ++ i ++ ", " ++ n ++ " = \x7b" ++ d ++ "\x7d\x7d" with hinp
  have hsplit0 : inp.data =
      ['@'] ++ (k.data ++ (['{'] ++ (i.data ++ ([',', ' '] ++ (n.data ++
        ([' ', '=', ' ', '{'] ++ (d.data ++ ['}', '}']))))))) := by
    simp [hinp, String.data_append]
  have hsplit : inp.data ++ ['\n'] =
      ['@'] ++ (k.data ++ (['{'] ++ (i.data ++ ([',', ' '] ++ (n.data ++
        ([' ', '=', ' ', '{'] ++ (d.data ++ ['}', '}', '\n']))))))) := by
    rw [hsplit0]
    simp
  have hd_nb1 : '{' ∉ d.data := fun hh => (hdc _ hh).2.1 rfl
  have hd_nb2 : '}' ∉ d.data := fun hh => (hdc _ hh).2.2.1 rfl
  have hd_nb3 : '\\' ∉ d.data := fun hh => (hdc _ hh).1 rfl
  have hnl : '\n' ∉ inp.data := by
    intro hh
    rw [hsplit0] at hh
    simp at hh
    rcases hh with h | h | h | h
    · exact absurd (rustIsWhitespace_of_alnum (hkc _ h)) (by decide)
    · exact absurd ((hic _ h).2.1) (by simp [rustIsWhitespace])
    · exact absurd ((hnc _ h).2.1) (by simp [rustIsWhitespace])
    · exact (hdc _ h).2.2.2 rfl
  have hne : inp.data ≠ [] := by
    rw [hsplit0]
    simp
  have hbal := innerBalancedOk_no_braces 0 d.data hd_nb1 hd_nb2
  have hsl := scanLevel_no_braces 0 d.data hd_nb1 hd_nb2
  have wlb : rustIsWhitespace '{' = false := by decide
  have alb : rustIsAlphanumeric '{' = false := by decide
  have wcm : rustIsWhitespace ',' = false := by decide
  have weq : rustIsWhitespace '=' = false := by decide
  have wsp : rustIsWhitespace ' ' = true := by decide
  have wnl : rustIsWhitespace '\n' = true := by decide
  have e0 : ("" : String).isEmpty = true := by decide
  have s1 : lexChars (Lexer.iter inp) inp ['@'] =
      .ok (.mk inp [] 0 1 .ReadingType none "" false false false 0 false) := by
    simp [Lexer.iter, lexChars, lexChar, lexStep]
  have s2 : lexChars (.mk inp [] 0 1 .ReadingType none "" false false false 0 false) inp
        k.data =
      .ok (.mk inp [] 0 (1 + k.data.length) .ReadingType none k false false false 0 false) :=
    lexChars_readingType inp k.data _ rfl hkc
  have s3 : lexChars (.mk inp [] 0 (1 + k.data.length) .ReadingType none k false false false
        0 false) inp ['{'] =
      .ok (.mk inp [(Token.EntrySymbol, ⟨0, 1 + k.data.length, inp, some k⟩),
                    (Token.EntryType k, ⟨0, 1 + k.data.length, inp, some k⟩),
                    (Token.OpenEntry, ⟨0, 1 + k.data.length, inp, some k⟩)]
             0 (1 + k.data.length + 1) .ReadingId (some k) "" false false false 0 false) := by
    simp [lexChars, lexChar, lexStep, isEmpty_eq_false hk, hkp, LexingIterator.info, wlb, alb]
  have s4 : lexChars (.mk inp [(Token.EntrySymbol, ⟨0, 1 + k.data.length, inp, some k⟩),
                    (Token.EntryType k, ⟨0, 1 + k.data.length, inp, some k⟩),
                    (Token.OpenEntry, ⟨0, 1 + k.data.length, inp, some k⟩)]
             0 (1 + k.data.length + 1) .ReadingId (some k) "" false false false 0 false) inp
        i.data =
      .ok (.mk inp [(Token.EntrySymbol, ⟨0, 1 + k.data.length, inp, some k⟩),
                    (Token.EntryType k, ⟨0, 1 + k.data.length, inp, some k⟩),
                    (Token.OpenEntry, ⟨0, 1 + k.data.length, inp, some k⟩)]
             0 (1 + k.data.length + 1 + i.data.length) .ReadingId (some k) i
             false false false 0 false) :=
    lexChars_readingId inp i.data _ rfl hic
  have s5 : lexChars (.mk inp [(Token.EntrySymbol, ⟨0, 1 + k.data.length, inp, some k⟩),
                    (Token.EntryType k, ⟨0, 1 + k.data.length, inp, some k⟩),
                    (Token.OpenEntry, ⟨0, 1 + k.data.length, inp, some k⟩)]
             0 (1 + k.data.length + 1 + i.data.length) .ReadingId (some k) i
             false false false 0 false) inp [',', ' '] =
      .ok (.mk inp [(Token.EntrySymbol, ⟨0, 1 + k.data.length, inp, some k⟩),
                    (Token.EntryType k, ⟨0, 1 + k.data.length, inp, some k⟩),
                    (Token.OpenEntry, ⟨0, 1 + k.data.length, inp, some k⟩),
                    (Token.EntryId i, ⟨0, 1 + k.data.length + 1 + i.data.length, inp, some k⟩)]
             0 (1 + k.data.length + 1 + i.data.length + 1 + 1) .ReadingName (some k) ""
             false false false 0 false) := by
    simp [lexChars, lexChar, lexStep, LexingIterator.info, wcm, wsp, e0]
  have s7 : lexChars (.mk inp [(Token.EntrySymbol, ⟨0, 1 + k.data.length, inp, some k⟩),
                    (Token.EntryType k, ⟨0, 1 + k.data.length, inp, some k⟩),
                    (Token.OpenEntry, ⟨0, 1 + k.data.length, inp, some k⟩),
                    (Token.EntryId i, ⟨0, 1 + k.data.length + 1 + i.data.length, inp, some k⟩)]
             0 (1 + k.data.length + 1 + i.data.length + 1 + 1) .ReadingName (some k) ""
             false false false 0 false) inp n.data =
      .ok (.mk inp [(Token.EntrySymbol, ⟨0, 1 + k.data.length, inp, some k⟩),
                    (Token.EntryType k, ⟨0, 1 + k.data.length, inp, some k⟩),
                    (Token.OpenEntry, ⟨0, 1 + k.data.length, inp, some k⟩),
                    (Token.EntryId i, ⟨0, 1 + k.data.length + 1 + i.data.length, inp, some k⟩)]
             0 (1 + k.data.length + 1 + i.data.length + 1 + 1 + n.data.length) .ReadingName
             (some k) n false false false 0 false) :=
    lexChars_readingName inp n.data _ rfl hnc
  have s8 : lexChars (.mk inp [(Token.EntrySymbol, ⟨0, 1 + k.data.length, inp, some k⟩),
                    (Token.EntryType k, ⟨0, 1 + k.data.length, inp, some k⟩),
                    (Token.OpenEntry, ⟨0, 1 + k.data.length, inp, some k⟩),
                    (Token.EntryId i, ⟨0, 1 + k.data.length + 1 + i.data.length, inp, some k⟩)]
             0 (1 + k.data.length + 1 + i.data.length + 1 + 1 + n.data.length) .ReadingName
             (some k) n false false false 0 false) inp [' ', '=', ' ', '{'] =
      .ok (.mk inp [(Token.EntrySymbol, ⟨0, 1 + k.data.length, inp, some k⟩),
                    (Token.EntryType k, ⟨0, 1 + k.data.length, inp, some k⟩),
                    (Token.OpenEntry, ⟨0, 1 + k.data.length, inp, some k⟩),
                    (Token.EntryId i, ⟨0, 1 + k.data.length + 1 + i.data.length, inp, some k⟩),
                    (Token.FieldName n,
                      ⟨0, 1 + k.data.length + 1 + i.data.length + 1 + 1 + n.data.length + 1,
                        inp, some k⟩)]
             0 (1 + k.data.length + 1 + i.data.length + 1 + 1 + n.data.length + 1 + 1 + 1 + 1)
             .ReadingData (some k) "" false false true 0 false) := by
    simp [lexChars, lexChar, lexStep, LexingIterator.info, isEmpty_eq_false hn, wsp, weq, wlb]
  have s12 : lexChars (.mk inp [(Token.EntrySymbol, ⟨0, 1 + k.data.length, inp, some k⟩),
                    (Token.EntryType k, ⟨0, 1 + k.data.length, inp, some k⟩),
                    (Token.OpenEntry, ⟨0, 1 + k.data.length, inp, some k⟩),
                    (Token.EntryId i, ⟨0, 1 + k.data.length + 1 + i.data.length, inp, some k⟩),
                    (Token.FieldName n,
                      ⟨0, 1 + k.data.length + 1 + i.data.length + 1 + 1 + n.data.length + 1,
                        inp, some k⟩)]
             0 (1 + k.data.length + 1 + i.data.length + 1 + 1 + n.data.length + 1 + 1 + 1 + 1)
             .ReadingData (some k) "" false false true 0 false) inp d.data =
      .ok (.mk inp [(Token.EntrySymbol, ⟨0, 1 + k.data.length, inp, some k⟩),
                    (Token.EntryType k, ⟨0, 1 + k.data.length, inp, some k⟩),
                    (Token.OpenEntry, ⟨0, 1 + k.data.length, inp, some k⟩),
                    (Token.EntryId i, ⟨0, 1 + k.data.length + 1 + i.data.length, inp, some k⟩),
                    (Token.FieldName n,
                      ⟨0, 1 + k.data.length + 1 + i.data.length + 1 + 1 + n.data.length + 1,
                        inp, some k⟩)]
             0 (1 + k.data.length + 1 + i.data.length + 1 + 1 + n.data.length + 1 + 1 + 1 + 1
                 + d.data.length)
             .ReadingData (some k) d false false true (scanLevel 0 d.data) false) :=
    lexChars_readingDataCurly inp d.data _ rfl rfl rfl rfl hd_nb3 hbal
  have s13 : lexChars (.mk inp [(Token.EntrySymbol, ⟨0, 1 + k.data.length, inp, some k⟩),
                    (Token.EntryType k, ⟨0, 1 + k.data.length, inp, some k⟩),
                    (Token.OpenEntry, ⟨0, 1 + k.data.length, inp, some k⟩),
                    (Token.EntryId i, ⟨0, 1 + k.data.length + 1 + i.data.length, inp, some k⟩),
                    (Token.FieldName n,
                      ⟨0, 1 + k.data.length + 1 + i.data.length + 1 + 1 + n.data.length + 1,
                        inp, some k⟩)]
             0 (1 + k.data.length + 1 + i.data.length + 1 + 1 + n.data.length + 1 + 1 + 1 + 1
                 + d.data.length)
             .ReadingData (some k) d false false true (scanLevel 0 d.data) false) inp
        ['}', '}', '\n'] =
      .ok (.mk inp [(Token.EntrySymbol, ⟨0, 1 + k.data.length, inp, some k⟩),
                    (Token.EntryType k, ⟨0, 1 + k.data.length, inp, some k⟩),
                    (Token.OpenEntry, ⟨0, 1 + k.data.length, inp, some k⟩),
                    (Token.EntryId i, ⟨0, 1 + k.data.length + 1 + i.data.length, inp, some k⟩),
                    (Token.FieldName n,
                      ⟨0, 1 + k.data.length + 1 + i.data.length + 1 + 1 + n.data.length + 1,
                        inp, some k⟩),
                    (Token.FieldData d,
                      ⟨0, 1 + k.data.length + 1 + i.data.length + 1 + 1 + n.data.length + 1
                          + 1 + 1 + 1 + d.data.length, inp, some k⟩),
                    (Token.CloseEntry,
                      ⟨0, 1 + k.data.length + 1 + i.data.length + 1 + 1 + n.data.length + 1
                          + 1 + 1 + 1 + d.data.length + 1, inp, some k⟩)]
             0 (1 + k.data.length + 1 + i.data.length + 1 + 1 + n.data.length + 1 + 1 + 1 + 1
                 + d.data.length + 1 + 1 + 1)
             .Default (some k) "" false false true 0 false) := by
    simp [lexChars, lexChar, lexStep, LexingIterator.info, hsl, wnl, postprocessFieldValue]
  have hrun : lexChars (Lexer.iter inp) inp (inp.data ++ ['\n']) =
      .ok (.mk inp [(Token.EntrySymbol, ⟨0, 1 + k.data.length, inp, some k⟩),
                    (Token.EntryType k, ⟨0, 1 + k.data.length, inp, some k⟩),
                    (Token.OpenEntry, ⟨0, 1 + k.data.length, inp, some k⟩),
                    (Token.EntryId i, ⟨0, 1 + k.data.length + 1 + i.data.length, inp, some k⟩),
                    (Token.FieldName n,
                      ⟨0, 1 + k.data.length + 1 + i.data.length + 1 + 1 + n.data.length + 1,
                        inp, some k⟩),
                    (Token.FieldData d,
                      ⟨0, 1 + k.data.length + 1 + i.data.length + 1 + 1 + n.data.length + 1
                          + 1 + 1 + 1 + d.data.length, inp, some k⟩),
                    (Token.CloseEntry,
                      ⟨0, 1 + k.data.length + 1 + i.data.length + 1 + 1 + n.data.length + 1
                          + 1 + 1 + 1 + d.data.length + 1, inp, some k⟩)]
             0 (1 + k.data.length + 1 + i.data.length + 1 + 1 + n.data.length + 1 + 1 + 1 + 1
                 + d.data.length + 1 + 1 + 1)
             .Default (some k) "" false false true 0 false) := by
    rw [hsplit, lexChars_append_ok s1, lexChars_append_ok s2, lexChars_append_ok s3,
      lexChars_append_ok s4, lexChars_append_ok s5, lexChars_append_ok s7,
      lexChars_append_ok s8, lexChars_append_ok s12]
    exact s13
  have hlex : lex (Lexer.iter inp) =
    .ok (.mk inp [(Token.EntrySymbol, ⟨0, 1 + k.data.length, inp, some k⟩),
                  (Token.EntryType k, ⟨0, 1 + k.data.length, inp, some k⟩),
                  (Token.OpenEntry, ⟨0, 1 + k.data.length, inp, some k⟩),
                  (Token.EntryId i, ⟨0, 1 + k.data.length + 1 + i.data.length, inp, some k⟩),
                  (Token.FieldName n,
                    ⟨0, 1 + k.data.length + 1 + i.data.length + 1 + 1 + n.data.length + 1,
                      inp, some k⟩),
                  (Token.FieldData d,
                    ⟨0, 1 + k.data.length + 1 + i.data.length + 1 + 1 + n.data.length + 1
                        + 1 + 1 + 1 + d.data.length, inp, some k⟩),
                  (Token.CloseEntry,
                    ⟨0, 1 + k.data.length + 1 + i.data.length + 1 + 1 + n.data.length + 1
                        + 1 + 1 + 1 + d.data.length + 1, inp, some k⟩),
                  (Token.EndOfFile, ⟨1, 0, "", none⟩)]
           1 0 .Default (some k) "" false false true 0 true) := by
    have hlines : rustLines inp = [inp] := rustLines_no_newline inp hne hnl
    have hsrc : (Lexer.iter inp).src = inp := rfl
    simp only [lex, hsrc, hlines, lexLines, lexLine, hrun]
    simp
  exact ⟨_, _, _, _, _, _, _, _, _, hlex, rfl, rfl⟩

/-- C1: for every valid minimal input of the shape `@kind{id, name = {data}}`
(entry type nonempty alphanumeric and not "preamble", citation key and field
name nonempty ASCII without the respective delimiters, data free of braces,
backslashes and newlines), iterating the parser yields exactly one Entry,
whose kind is `kind`, id is `id`, and whose field map holds exactly the
single pair `name -> data`; the following pull ends the iteration. -/
theorem c1_minimal_input_single_entry (kind cid fname fdata : String)
    (hk : kind ≠ "") (hkc : ∀ c ∈ kind.data, rustIsAlphanumeric c = true)
    (hkp : ¬(rustToLowercase kind = "preamble"))
    (hn : fname ≠ "")
    (hic : ∀ c ∈ cid.data, rustIsAscii c = true ∧ rustIsWhitespace c = false ∧ c ≠ ',')
    (hnc : ∀ c ∈ fname.data, rustIsAscii c = true ∧ rustIsWhitespace c = false ∧ c ≠ '=')
    (hdc : ∀ c ∈ fdata.data, c ≠ '\\' ∧ c ≠ '{' ∧ c ≠ '}' ∧ c ≠ '\n') :
    (pullsWithFuel 2 16 (Parser.iter
        ("@" ++ kind ++ "\x7b" ++ cid ++ ", " ++ fname ++ " = \x7b" ++ fdata ++ "\x7d\x7d"))).map itemView =
      [some (.ok (kind, cid, [(fname, fdata)])), none] := by
  obtain ⟨itF, i1, i2, i3, i4, i5, i6, i7, i8, hlex, htoks, heof⟩ :=
    lex_minimal kind cid fname fdata hk hkc hkp hn hic hnc hdc
  exact pulls_standardEntry _ itF kind cid fname fdata i1 i2 i3 i4 i5 i6 i7 i8 hlex htoks heof

/-- Witness for C1 at the concrete input `@book{tolkien1937, author = {X}}`. -/
theorem c1_minimal_input_single_entry_witness :
    (("book" : String) ≠ "" ∧ (∀ c ∈ ("book" : String).data, rustIsAlphanumeric c = true) ∧
      ¬(rustToLowercase "book" = "preamble") ∧ ("author" : String) ≠ "" ∧
      (∀ c ∈ ("tolkien1937" : String).data,
        rustIsAscii c = true ∧ rustIsWhitespace c = false ∧ c ≠ ',') ∧
      (∀ c ∈ ("author" : String).data,
        rustIsAscii c = true ∧ rustIsWhitespace c = false ∧ c ≠ '=') ∧
      (∀ c ∈ ("X" : String).data, c ≠ '\\' ∧ c ≠ '{' ∧ c ≠ '}' ∧ c ≠ '\n')) ∧
    (pullsWithFuel 2 16 (Parser.iter "@book{tolkien1937, author = {X}}")).map itemView =
      [some (.ok ("book", "tolkien1937", [("author", "X")])), none] :=
  ⟨⟨by decide, by decide, by decide, by decide, by decide, by decide, by decide⟩,
    c1_minimal_input_single_entry "book" "tolkien1937" "author" "X"
      (by decide) (by decide) (by decide) (by decide) (by decide) (by decide) (by decide)⟩


/-- C2: a brace-terminated field value keeps unescaped inner matched brace
pairs verbatim; the field is terminated only by the unescaped `'}'` at
which the brace-depth counter returns to zero.  `innerBalancedOk` states
that no earlier `'}'` is reached at depth 0, `scanLevel cs = 0` states that
the final `'}'` is reached at depth 0; the emitted FieldData is the
accumulator extended by `cs` unchanged, inner braces included. -/
theorem c2_brace_terminated_value (cs : List Char) (it : LexingIterator) (line : String)
    (h1 : it.state = .ReadingData) (h2 : it.escape_character = false)
    (h3 : it.curlybrace_terminator = true) (h4 : it.dblquotes_terminator = false)
    (h5 : it.curlybrace_level = 0)
    (h6 : '\\' ∉ cs) (h7 : innerBalancedOk 0 cs = true) (h8 : scanLevel 0 cs = 0) :
    lexChars it line (cs ++ ['}']) =
      .ok { it with
        next_tokens := it.next_tokens ++
          [(Token.FieldData ⟨it.arg_cache.data ++ cs⟩,
            ⟨it.lineno, it.colno + cs.length, line, it.current_id⟩)],
        arg_cache := "",
        state := .WaitForSep,
        colno := it.colno + cs.length + 1 } := by
  obtain ⟨src, toks, ln, col, st, cid, arg, esc, dq, cb, lvl, eo⟩ := it
  simp only at h1 h2 h3 h4 h5
  subst h1; subst h2; subst h3; subst h4; subst h5
  rw [lexChars_append_ok (lexChars_readingDataCurly line cs _ rfl rfl rfl rfl h6 h7)]
  simp [lexChars, lexChar, lexStep, h8, LexingIterator.info, postprocessFieldValue]

/-- Witness for C2 at the spec's example `{A {CRYSTALS-KYBER} and {SABER}}`:
the full value, inner braces included, is emitted as one FieldData. -/
theorem c2_brace_terminated_value_witness :
    (innerBalancedOk 0 ("A {CRYSTALS-KYBER} and {SABER}").data = true ∧
      scanLevel 0 ("A {CRYSTALS-KYBER} and {SABER}").data = 0 ∧
      '\\' ∉ ("A {CRYSTALS-KYBER} and {SABER}").data) ∧
    lexChars ⟨"", [], 0, 0, .ReadingData, none, "", false, false, true, 0, false⟩ ""
        (("A {CRYSTALS-KYBER} and {SABER}").data ++ ['}']) =
      .ok ⟨"", [(Token.FieldData "A {CRYSTALS-KYBER} and {SABER}", ⟨0, 30, "", none⟩)],
        0, 31, .WaitForSep, none, "", false, false, true, 0, false⟩ := by
  refine ⟨⟨by decide, by decide, by decide⟩, ?_⟩
  rw [c2_brace_terminated_value ("A {CRYSTALS-KYBER} and {SABER}").data
    ⟨"", [], 0, 0, .ReadingData, none, "", false, false, true, 0, false⟩ ""
    rfl rfl rfl rfl rfl (by decide) (by decide) (by decide)]
  decide

/-- C3 counterexample: in a quote-delimited field value the escaped closing
brace is NOT unescaped — `@a{b, x = "\}"}` yields FieldData `\}` (backslash
kept), where the claim predicts `}`. -/
theorem c3_counterexample_escaped_brace_kept :
    lexedTokens "@a\x7bb, x = \"\\\x7d\"\x7d" =
      [Token.EntrySymbol, Token.EntryType "a", Token.OpenEntry, Token.EntryId "b",
       Token.FieldName "x", Token.FieldData "\\\x7d", Token.CloseEntry, Token.EndOfFile] ∧
    ("\\\x7d" : String) ≠ "\x7d" := by
  constructor
  · rfl
  · decide

/-- C3 amended: in a quote-delimited field value, an escaped double quote
`\"` is unescaped to the bare quote, but an escaped closing brace `\}` is
kept as backslash-plus-brace (the `}` unescaping applies only to
brace-delimited values). -/
theorem c3_quote_escapes (it : LexingIterator) (line : String)
    (h1 : it.state = .ReadingData) (h2 : it.escape_character = false)
    (h3 : it.dblquotes_terminator = true) (h4 : it.curlybrace_terminator = false) :
    lexChars it line ['\\', '"'] =
      .ok { it with arg_cache := it.arg_cache.push '"', colno := it.colno + 2 } ∧
    lexChars it line ['\\', '}'] =
      .ok { it with arg_cache := (it.arg_cache.push '\\').push '}',
                    colno := it.colno + 2 } := by
  obtain ⟨src, toks, ln, col, st, cid, arg, esc, dq, cb, lvl, eo⟩ := it
  simp only at h1 h2 h3 h4
  subst h1; subst h2; subst h3; subst h4
  constructor
  · simp [lexChars, lexChar, lexStep]
  · simp [lexChars, lexChar, lexStep]

/-- Witness for the amended C3 at a concrete quote-mode lexer state. -/
theorem c3_quote_escapes_witness :
    lexChars ⟨"", [], 0, 0, .ReadingData, none, "", false, true, false, 0, false⟩ ""
        ['\\', '"'] =
      .ok ⟨"", [], 0, 2, .ReadingData, none, "\"", false, true, false, 0, false⟩ ∧
    lexChars ⟨"", [], 0, 0, .ReadingData, none, "", false, true, false, 0, false⟩ ""
        ['\\', '}'] =
      .ok ⟨"", [], 0, 2, .ReadingData, none, "\\\x7d", false, true, false, 0, false⟩ :=
  c3_quote_escapes ⟨"", [], 0, 0, .ReadingData, none, "", false, true, false, 0, false⟩ ""
    rfl rfl rfl rfl


/-! ## Field-map lemmas and the duplicate-name invariant -/

theorem hmGet_cons_ne {a b k : String} (rest : List (String × String)) (h : ¬(a = k)) :
    hmGet ((a, b) :: rest) k = hmGet rest k := by
  simp [hmGet, h]

theorem hmGet_append {m : List (String × String)} {k' : String} (l : List (String × String))
    (h : hmGet m k' = none) : hmGet (m ++ l) k' = hmGet l k' := by
  induction m with
  | nil => rfl
  | cons p rest ih =>
    obtain ⟨a, b⟩ := p
    have hk : ¬(a = k') := by
      intro hh
      simp [hmGet, hh] at h
    rw [List.cons_append, hmGet_cons_ne _ hk]
    exact ih (by rwa [hmGet_cons_ne _ hk] at h)

theorem hmInsert_eq_append {m : List (String × String)} {k : String} (v : String)
    (h : hmGet m k = none) : hmInsert m k v = m ++ [(k, v)] := by
  induction m with
  | nil => rfl
  | cons p rest ih =>
    obtain ⟨a, b⟩ := p
    have hk : ¬(a = k) := by
      intro hh
      simp [hmGet, hh] at h
    rw [show hmInsert ((a, b) :: rest) k v =
        (if a = k then (k, v) :: rest else (a, b) :: hmInsert rest k v) from rfl,
      if_neg hk, List.cons_append]
    rw [ih (by rwa [hmGet_cons_ne _ hk] at h)]

theorem keysDistinct_insert {m : List (String × String)} {k : String} (v : String)
    (hd : keysDistinct m = true) (h : hmGet m k = none) :
    keysDistinct (hmInsert m k v) = true := by
  rw [hmInsert_eq_append v h]
  induction m with
  | nil => simp [keysDistinct, hmGet]
  | cons p rest ih =>
    obtain ⟨a, b⟩ := p
    simp only [keysDistinct, Bool.and_eq_true, Option.isNone_iff_eq_none] at hd
    obtain ⟨hda, hdr⟩ := hd
    have hk : ¬(a = k) := by
      intro hh
      simp [hmGet, hh] at h
    have hrest : hmGet rest k = none := by rwa [hmGet_cons_ne _ hk] at h
    show keysDistinct ((a, b) :: (rest ++ [(k, v)])) = true
    simp only [keysDistinct, Bool.and_eq_true, Option.isNone_iff_eq_none]
    refine ⟨?_, ih hdr hrest⟩
    have hka : ¬(k = a) := fun hh => hk hh.symm
    have hlast : hmGet [(k, v)] a = none := by simp [hmGet, hka]
    rw [hmGet_append _ hda, hlast]

/-- The invariant carried by the entry assembler: the in-progress entry and
every completed entry have pairwise-distinct field names. -/
def entriesInv (pb : BibEntries) : Prop :=
  keysDistinct pb.current.fields = true ∧ ∀ e ∈ pb.entries, keysDistinct e.fields = true

theorem parse_preserves_inv (pb : BibEntries) (h : entriesInv pb) :
    entriesInv (pb.parse).1 := by
  obtain ⟨hcur, hents⟩ := h
  rcases hres : nextLexer pb.iter with ⟨item, it'⟩
  unfold BibEntries.parse
  rw [hres]
  rcases item with _ | item1
  · exact ⟨hcur, hents⟩
  rcases item1 with e | p
  case error => exact ⟨hcur, hents⟩
  obtain ⟨tok, info⟩ := p
  cases tok with
    | EntrySymbol => exact ⟨hcur, hents⟩
    | EntryType s => exact ⟨hcur, hents⟩
    | OpenEntry => exact ⟨hcur, hents⟩
    | EntryId s => exact ⟨hcur, hents⟩
    | FieldName s => exact ⟨hcur, hents⟩
    | FieldData s =>
      show entriesInv
        ((if (hmGet pb.current.fields pb.name_cached).isSome = true
          then (({ pb with iter := it', name_cached := "" } : BibEntries),
                some (BibError.duplicateName pb.name_cached info))
          else ({ pb with
                  iter := it'
                  name_cached := ""
                  current := { pb.current with
                    fields := hmInsert pb.current.fields pb.name_cached s } }, none)).1)
      by_cases hdup : (hmGet pb.current.fields pb.name_cached).isSome = true
      · rw [if_pos hdup]
        exact ⟨hcur, hents⟩
      · rw [if_neg hdup]
        have hnone : hmGet pb.current.fields pb.name_cached = none := by
          rcases ho : hmGet pb.current.fields pb.name_cached with _ | v
          · rfl
          · exact absurd (by rw [ho]; rfl) hdup
        exact ⟨keysDistinct_insert s hcur hnone, hents⟩
    | Preamble s => exact ⟨hcur, hents⟩
    | CloseEntry =>
      refine ⟨rfl, ?_⟩
      intro e he
      rw [List.mem_append] at he
      rcases he with he | he
      · exact hents e he
      · rw [List.mem_singleton] at he
        rw [he]
        exact hcur
    | EndOfFile => exact ⟨hcur, hents⟩

theorem nextWithFuel_inv :
    ∀ (fuel : Nat) (pb : BibEntries), entriesInv pb →
      entriesInv (BibEntries.nextWithFuel fuel pb).2 ∧
      ∀ e : BibEntry, (BibEntries.nextWithFuel fuel pb).1 = some (some (.ok e)) →
        keysDistinct e.fields = true := by
  intro fuel
  induction fuel with
  | zero =>
    intro pb h
    exact ⟨h, fun e he => by simp [BibEntries.nextWithFuel] at he⟩
  | succ fuel ih =>
    intro pb h
    by_cases hfin : pb.finished = true
    · constructor
      · simpa [BibEntries.nextWithFuel, hfin] using h
      · intro e he
        simp [BibEntries.nextWithFuel, hfin] at he
    · rcases hents : pb.entries with _ | ⟨e0, rest⟩
      · rcases hparse : pb.parse with ⟨pb', err⟩
        have hinv' : entriesInv pb' := by
          have := parse_preserves_inv pb ⟨h.1, h.2⟩
          rwa [hparse] at this
        match err with
        | some err =>
          constructor
          · simpa [BibEntries.nextWithFuel, hfin, hents, hparse] using hinv'
          · intro e he
            simp [BibEntries.nextWithFuel, hfin, hents, hparse] at he
        | none =>
          constructor
          · simpa [BibEntries.nextWithFuel, hfin, hents, hparse] using (ih pb' hinv').1
          · intro e he
            simp only [BibEntries.nextWithFuel, hfin, if_false, hents, hparse] at he
            exact (ih pb' hinv').2 e he
      · have hred : BibEntries.nextWithFuel (fuel + 1) pb =
            (some (some (.ok e0)), { pb with entries := rest }) := by
          simp [BibEntries.nextWithFuel, hfin, hents]
        rw [hred]
        constructor
        · refine ⟨h.1, fun e he => h.2 e ?_⟩
          rw [hents]
          exact List.mem_cons_of_mem _ he
        · intro e he
          simp only [Option.some.injEq, Except.ok.injEq] at he
          rw [← he]
          apply h.2
          rw [hents]
          exact List.mem_cons_self e0 rest

theorem pulls_ok_distinct :
    ∀ (nn fuel : Nat) (pb : BibEntries), entriesInv pb →
      ∀ item ∈ pullsWithFuel nn fuel pb, ∀ e : BibEntry,
        item = some (.ok e) → keysDistinct e.fields = true := by
  intro nn
  induction nn with
  | zero =>
    intro fuel pb h item hitem
    simp [pullsWithFuel] at hitem
  | succ nn ih =>
    intro fuel pb h item hitem e hee
    rcases hnext : BibEntries.nextWithFuel fuel pb with ⟨r, pb'⟩
    match r with
    | none =>
      rw [show pullsWithFuel (nn + 1) fuel pb =
          (match BibEntries.nextWithFuel fuel pb with
          | (none, _) => []
          | (some item0, pb'') => item0 :: pullsWithFuel nn fuel pb'') from rfl,
        hnext] at hitem
      simp at hitem
    | some item0 =>
      rw [show pullsWithFuel (nn + 1) fuel pb =
          (match BibEntries.nextWithFuel fuel pb with
          | (none, _) => []
          | (some item0, pb'') => item0 :: pullsWithFuel nn fuel pb'') from rfl,
        hnext] at hitem
      rcases List.mem_cons.mp hitem with hitem' | hitem'
      · subst hitem'
        subst hee
        have := (nextWithFuel_inv fuel pb h).2 e
        rw [hnext] at this
        exact this rfl
      · have hinv' : entriesInv pb' := by
          have := (nextWithFuel_inv fuel pb h).1
          rwa [hnext] at this
        exact ih fuel pb' hinv' item hitem' e hee

/-- C4 amended: when the same field name occurs twice in one entry, the
assembler raises a DuplicateName error carrying that name at the second
occurrence (shown at the example input), it does not overwrite the first
binding, and every Entry the iterator ever yields has pairwise-distinct
field names; however, a caller that keeps pulling past the error still
receives an Entry for that record — see the counterexample theorem. -/
theorem c4_duplicate_name (src : String) (nn fuel : Nat)
    (item : Option (Except BibError BibEntry)) (e : BibEntry)
    (hmem : item ∈ pullsWithFuel nn fuel (Parser.iter src))
    (hok : item = some (.ok e)) :
    keysDistinct e.fields = true ∧
    (pullsWithFuel 1 32 (Parser.iter "@book{x, a = {1}, a = {2}}")).map itemView =
      [some (.error (some "a"))] := by
  constructor
  · exact pulls_ok_distinct nn fuel (Parser.iter src) ⟨rfl, by simp [Parser.iter]⟩
      item hmem e hok
  · decide

/-- Witness for the amended C4: the duplicate-name input yields first the
DuplicateName "a" error; the entry later emitted carries distinct keys. -/
theorem c4_duplicate_name_witness :
    (some (Except.ok (⟨"book", "x", [("a", "1")]⟩ : BibEntry)) ∈
        pullsWithFuel 3 32 (Parser.iter "@book{x, a = {1}, a = {2}}") ∧
      (some (Except.ok (⟨"book", "x", [("a", "1")]⟩ : BibEntry))
          : Option (Except BibError BibEntry)) =
        some (Except.ok (⟨"book", "x", [("a", "1")]⟩ : BibEntry))) ∧
    keysDistinct (⟨"book", "x", [("a", "1")]⟩ : BibEntry).fields = true :=
  ⟨⟨by decide, rfl⟩,
    (c4_duplicate_name "@book{x, a = {1}, a = {2}}" 3 32
      (some (.ok ⟨"book", "x", [("a", "1")]⟩)) ⟨"book", "x", [("a", "1")]⟩
      (by decide) rfl).1⟩

/-- C4 counterexample: after the DuplicateName error the iterator, if
pulled again, DOES emit an Entry for the very record that contained the
duplicate (carrying the first binding), contradicting "no Entry is ever
emitted for that record". -/
theorem c4_counterexample_entry_after_duplicate :
    (pullsWithFuel 3 32 (Parser.iter "@book{x, a = {1}, a = {2}}")).map itemView =
      [some (.error (some "a")), some (.ok ("book", "x", [("a", "1")])), none] := by
  decide


/-! ## Termination behaviour of the entry iterator (C5) -/

/-- C5 counterexample: for the input `!` the first pull yields a lexical
error, and the second pull yields ANOTHER item (the same error again)
rather than nothing — iteration does not stop after the first Err. -/
theorem c5_counterexample_error_repeats :
    (pullsWithFuel 2 8 (Parser.iter "!")).map itemView =
      [some (.error none), some (.error none)] := by
  decide

/-- C5 amended: end-of-sequence is permanent — once the iterator has
reported end (the `finished` flag, set by the terminating EndOfFile of a
successful parse), every later pull reports end again; an error result,
however, does not terminate the sequence (see the counterexample). -/
theorem c5_end_is_permanent :
    (∀ (fuel : Nat) (pb : BibEntries), pb.finished = true →
        BibEntries.nextWithFuel (fuel + 1) pb = (some none, pb)) ∧
    (∀ (fuel : Nat) (pb pb' : BibEntries),
        BibEntries.nextWithFuel fuel pb = (some none, pb') → pb'.finished = true) := by
  constructor
  · intro fuel pb h
    simp [BibEntries.nextWithFuel, h]
  · intro fuel
    induction fuel with
    | zero =>
      intro pb pb' h
      simp [BibEntries.nextWithFuel] at h
    | succ fuel ih =>
      intro pb pb' h
      by_cases hfin : pb.finished = true
      · simp only [BibEntries.nextWithFuel, hfin, if_true, Prod.mk.injEq] at h
        rw [← h.2]
        exact hfin
      · rcases hents : pb.entries with _ | ⟨e0, rest⟩
        · rcases hparse : pb.parse with ⟨pb'', err⟩
          match err with
          | some err =>
            rw [show BibEntries.nextWithFuel (fuel + 1) pb =
                (some (some (.error err)), pb'') from by
              simp [BibEntries.nextWithFuel, hfin, hents, hparse]] at h
            simp at h
          | none =>
            rw [show BibEntries.nextWithFuel (fuel + 1) pb =
                BibEntries.nextWithFuel fuel pb'' from by
              simp [BibEntries.nextWithFuel, hfin, hents, hparse]] at h
            exact ih pb'' pb' h
        · rw [show BibEntries.nextWithFuel (fuel + 1) pb =
              (some (some (.ok e0)), { pb with entries := rest }) from by
            simp [BibEntries.nextWithFuel, hfin, hents]] at h
          simp at h

/-- Witness for C5 amended: a finished iterator state yields end again. -/
theorem c5_end_is_permanent_witness :
    ((⟨Lexer.iter "", [], BibEntry.new, "", true⟩ : BibEntries).finished = true) ∧
    BibEntries.nextWithFuel 1 ⟨Lexer.iter "", [], BibEntry.new, "", true⟩ =
      (some none, ⟨Lexer.iter "", [], BibEntry.new, "", true⟩) :=
  ⟨rfl, c5_end_is_permanent.1 0 ⟨Lexer.iter "", [], BibEntry.new, "", true⟩ rfl⟩

/-! ## The current-entry-id component of positions (C6) -/

/-- C6, evaluated at the failing input: every token of the entry
`@book{works:4, ...}` carries `current_id = some "book"` — the entry TYPE,
assigned from the argument cache in the ReadingType state — and never the
citation key "works:4" that the claim (and the field's own documentation
comment, lexer.rs line 124) promises. -/
theorem c6_current_id_is_entry_type :
    lexedTokenIds "@book{works:4, author = {X}}" =
      [(Token.EntrySymbol, some "book"), (Token.EntryType "book", some "book"),
       (Token.OpenEntry, some "book"), (Token.EntryId "works:4", some "book"),
       (Token.FieldName "author", some "book"), (Token.FieldData "X", some "book"),
       (Token.CloseEntry, some "book"), (Token.EndOfFile, none)] ∧
    (some "book" : Option String) ≠ some "works:4" := by
  constructor
  · rfl
  · decide

/-! ## Preamble detection through WaitForOpen (C9) -/

/-- C9: whether `@preamble` enters preamble mode depends on the `{`
arriving directly in ReadingType.  With a space before `{` the lexer goes
through WaitForOpen, whose preamble check consults the stale `current_id`
(still `none` at the start of a file), so `@preamble {"x"}` enters
ReadingId — ordinary-entry mode — while `@preamble{"x"}` enters
ReadingPreambleStringStart. -/
theorem c9_preamble_space_misses_preamble_mode :
    lexStateAfter "@preamble \x7b\"x\"\x7d" 11 = some .ReadingId ∧
    lexStateAfter "@preamble\x7b\"x\"\x7d" 10 = some .ReadingPreambleStringStart ∧
    LexingState.ReadingId ≠ LexingState.ReadingPreambleStringStart := by
  refine ⟨rfl, rfl, by decide⟩

/-! ## Degrouping fallback (C10) -/

/-- C10: `degroup` falls back to the original string only when the brace
counter is nonzero after the whole scan; whenever the final count is zero
it returns the stripped scan result, even if the count went negative along
the way.  At `"}{"` the count is `-1` after the first character yet `0` at
the end, so the stripped result `""` (not the original `"}{"` ) is
returned; at `"{x"` the count ends at `1`, so the original is returned. -/
theorem c10_degroup_fallback_only_nonzero :
    (∀ s : String,
      ((s.data.foldl degroupStep ([], 0, false)).2.1 = 0 →
        BibEntry.degroup s = ⟨(s.data.foldl degroupStep ([], 0, false)).1⟩) ∧
      (¬((s.data.foldl degroupStep ([], 0, false)).2.1 = 0) → BibEntry.degroup s = s)) ∧
    (("\x7d".data.foldl degroupStep ([], 0, false)).2.1 = -1 ∧
      ("\x7d\x7b".data.foldl degroupStep ([], 0, false)).2.1 = 0 ∧
      BibEntry.degroup "\x7d\x7b" = "" ∧ ("\x7d\x7b" : String) ≠ "" ∧
      BibEntry.degroup "\x7bx" = "\x7bx") := by
  constructor
  · intro s
    constructor
    · intro h
      simp [BibEntry.degroup, h]
    · intro h
      simp [BibEntry.degroup, h]
  · exact ⟨by decide, by decide, by decide, by decide, by decide⟩

/-- Witness for C10 at `"}{"`: the final count is zero and the stripped
result is returned. -/
theorem c10_degroup_fallback_only_nonzero_witness :
    ("\x7d\x7b".data.foldl degroupStep ([], 0, false)).2.1 = 0 ∧
    BibEntry.degroup "\x7d\x7b" = ⟨("\x7d\x7b".data.foldl degroupStep ([], 0, false)).1⟩ :=
  ⟨by decide, (c10_degroup_fallback_only_nonzero.1 "\x7d\x7b").1 (by decide)⟩


/-! ## Identity lemmas for the post-processing pipeline (C7, C8) -/

end Bibparser
